import Mathlib

/-!
Verification of the advanced-vector container (src/advanced-vector/vector.h).

The C++ `Vector<T>` owns a raw buffer of `capacity` slots; the first `size`
slots hold live, constructed elements and the rest are raw memory.  We model
the buffer as a `List (Option Nat)` whose length is the capacity: `some v` is
a live element with value `v`, `none` is an uninitialized slot.  Element
values are `Nat`; moving an element copies its value in this model (the
moved-from slot keeps its value until destroyed, as in the source, where a
moved-from object remains alive until `destroy_n`).

Block calls to the standard algorithms (`std::uninitialized_copy_n`,
`std::uninitialized_move_n`, `std::move`, `std::move_backward`,
`std::destroy_n`) are embedded as block list operations with the semantics
those algorithms guarantee; the hand-written element loops of
`operator=(const Vector&)` are embedded loop-by-loop via `copyRange` /
`clearRange` with the exact index bounds of the source, including the
`+ i + 1` offsets of line 186.
-/

/-- The observable state of a `Vector<T>`: `buf` is the raw buffer
(`buf.length` = capacity), `size` the number of logically live elements. -/
structure Vec where
  buf : List (Option Nat)
  size : Nat
deriving Repr, DecidableEq

/-- `Vector::Capacity` (vector.h:137-139): the raw buffer's capacity. -/
def Vec.cap (v : Vec) : Nat := v.buf.length

/-- Reading slot `i` of the buffer; `none` outside the buffer (raw memory). -/
def Vec.get (v : Vec) (i : Nat) : Option Nat := v.buf.getD i none

/-- The class invariant (spec section on state): `size ≤ capacity`, slots
`[0, size)` are live, slots `[size, capacity)` are raw. -/
def Vec.WF (v : Vec) : Prop :=
  v.size ≤ v.cap ∧ ∀ i : Nat, i < v.cap → ((v.get i).isSome ↔ i < v.size)

instance (v : Vec) : Decidable v.WF := by
  unfold Vec.WF
  infer_instance

/-- `Vector::Reserve` (vector.h:150-163): no-op when
`new_capacity <= Capacity()`; otherwise allocate a buffer of exactly
`new_capacity`, transfer the `size` live elements to its front
(`uninitialized_move_n` / `uninitialized_copy_n`), destroy the old ones and
swap the buffers in. -/
def Vec.reserve (v : Vec) (newCapacity : Nat) : Vec :=
  if newCapacity ≤ v.cap then v
  else
    { buf := v.buf.take v.size ++ List.replicate (newCapacity - v.size) none,
      size := v.size }

/-- `Vector::PushBack` (vector.h:219-253): at full capacity allocate
`Capacity() == 0 ? 1 : Capacity() * 2`, construct the new element at slot
`size_` of the new buffer, transfer the old elements, destroy them, swap;
otherwise construct in place at slot `size_`. -/
def Vec.pushBack (v : Vec) (x : Nat) : Vec :=
  if v.size = v.cap then
    { buf := v.buf.take v.size ++ [some x] ++
        List.replicate ((if v.cap = 0 then 1 else 2 * v.cap) - v.size - 1) none,
      size := v.size + 1 }
  else
    { buf := v.buf.set v.size (some x), size := v.size + 1 }

/-- `Vector::EmplaceBack` (vector.h:255-271): same staging as `PushBack`,
constructing `T(std::forward<Args>(args)...)`; in this value model the
constructed element has value `x`. -/
def Vec.emplaceBack (v : Vec) (x : Nat) : Vec :=
  if v.size = v.cap then
    { buf := v.buf.take v.size ++ [some x] ++
        List.replicate ((if v.cap = 0 then 1 else 2 * v.cap) - v.size - 1) none,
      size := v.size + 1 }
  else
    { buf := v.buf.set v.size (some x), size := v.size + 1 }

/-- `Vector::Emplace` (vector.h:273-326).  `p` is the index of `pos`.
`pos == end()` delegates to `EmplaceBack` and returns `end() - 1` (index
`size`).  At full capacity the new buffer receives the new element at slot
`p`, the old prefix `[0, p)` at `[0, p)`, and the old suffix `[p, size)` at
`[p+1, size+1)`.  Otherwise `*(end()-1)` is move-constructed into the raw
slot `size`, `std::move_backward` shifts `[p, size-1)` one slot right, and
the new value is move-assigned into slot `p`.  Returns the result index. -/
def Vec.emplace (v : Vec) (p : Nat) (x : Nat) : Vec × Nat :=
  if p = v.size then
    (v.emplaceBack x, v.size)
  else if v.cap = v.size then
    ({ buf := v.buf.take p ++ [some x] ++ (v.buf.drop p).take (v.size - p) ++
        List.replicate ((if v.cap = 0 then 1 else 2 * v.cap) - v.size - 1) none,
       size := v.size + 1 }, p)
  else
    ({ buf := v.buf.take p ++ [some x] ++ (v.buf.drop p).take (v.size - p) ++
        v.buf.drop (v.size + 1),
       size := v.size + 1 }, p)

/-- `Vector::Erase` (vector.h:327-333): `std::move(iter + 1, end(), iter)`
shifts `[p+1, size)` one slot down, `destroy_n` clears slot `size - 1`,
`size_--`, and `iter` (index `p`) is returned. -/
def Vec.erase (v : Vec) (p : Nat) : Vec × Nat :=
  ({ buf := v.buf.take p ++ (v.buf.drop (p + 1)).take (v.size - 1 - p) ++
      [none] ++ v.buf.drop v.size,
     size := v.size - 1 }, p)

/-- Writes `dst[i] := src[i]` for `i ∈ [lo, hi)`, in increasing order: the
element loops `for (; i < ...; ++i) data_[i] = rhs.data_[i];` of
`operator=(const Vector&)` (vector.h:174-176, 183-185) and the block
`uninitialized_copy_n` of line 186 read slot `i` of the source. -/
def copyRange (src dst : List (Option Nat)) (lo hi : Nat) : List (Option Nat) :=
  (List.range' lo (hi - lo)).foldl (fun d i => d.set i (src.getD i none)) dst

/-- `std::destroy_n` over slots `[lo, hi)` (vector.h:178): destroyed slots
become raw memory. -/
def clearRange (dst : List (Option Nat)) (lo hi : Nat) : List (Option Nat) :=
  (List.range' lo (hi - lo)).foldl (fun d i => d.set i none) dst

/-- `Vector::operator=(const Vector&)` (vector.h:165-192), the
`this != &rhs` path, embedded branch by branch:
* `rhs.size_ > Capacity()`: copy-construct `rhs_copy` and swap — the result
  has capacity exactly `rhs.size_` and the copied elements;
* `rhs.size_ <= size_`: copy-assign slots `[0, rhs.size_)`, destroy
  `[rhs.size_, size_)`;
* otherwise: copy-assign slots `[0, size_)`, then
  `uninitialized_copy_n(rhs.data_ + i + 1, rhs.size_ - size_, data_ + i + 1)`
  with `i = size_` — exactly the offsets of line 186 (source slots
  `[size_+1, rhs.size_+1)` into destination slots `[size_+1, rhs.size_+1)`;
  a write past the buffer end is dropped, a read past it yields raw
  memory `none`). -/
def Vec.copyAssign (dst src : Vec) : Vec :=
  if dst.cap < src.size then
    { buf := src.buf.take src.size, size := src.size }
  else if src.size ≤ dst.size then
    { buf := clearRange (copyRange src.buf dst.buf 0 src.size) src.size dst.size,
      size := src.size }
  else
    { buf := copyRange src.buf (copyRange src.buf dst.buf 0 dst.size)
        (dst.size + 1) (src.size + 1),
      size := src.size }

/-- Counts of element-level operations performed by one call of
`operator=(const Vector&)`. -/
structure AssignOps where
  copyAssignments : Nat
  copyConstructions : Nat
  destructions : Nat
deriving Repr, DecidableEq

/-- The element operations each branch of `operator=(const Vector&)`
performs (vector.h:167-189): the reallocating branch copy-constructs
`rhs.size_` elements and destroys the `size_` old ones (via `rhs_copy`'s
destructor after the swap); the shrink branch copy-assigns `rhs.size_` and
destroys `size_ - rhs.size_`; the grow-in-place branch copy-assigns `size_`
and copy-constructs `rhs.size_ - size_`. -/
def Vec.copyAssignOps (dst src : Vec) : AssignOps :=
  if dst.cap < src.size then ⟨0, src.size, dst.size⟩
  else if src.size ≤ dst.size then ⟨src.size, 0, dst.size - src.size⟩
  else ⟨dst.size, src.size - dst.size, 0⟩

/-- `operator=(const Vector&)` including its guard `if (this != &rhs)`
(vector.h:166): `isSelf` models `this == &rhs`.  When the guard fails the
body is skipped entirely: no element operation runs and `*this` is
returned unchanged. -/
def Vec.assign (dst src : Vec) (isSelf : Bool) : Vec × AssignOps :=
  if isSelf then (dst, ⟨0, 0, 0⟩)
  else (dst.copyAssign src, dst.copyAssignOps src)

/-- The compile-time element-type facts the growth paths branch on. -/
structure ElemType where
  nothrowMoveCtor : Bool
  copyCtorAvailable : Bool
deriving Repr, DecidableEq

/-- The `if constexpr` condition used by every growth path (vector.h:155,
223, 241, 260, 292, 298):
`std::is_nothrow_move_constructible_v<T> || !std::is_copy_constructible_v<T>`. -/
def growthUsesMove (t : ElemType) : Bool :=
  t.nothrowMoveCtor || !t.copyCtorAvailable

/-- `(moves, copies)` performed when a growth path transfers `n` existing
elements into the new buffer: `uninitialized_move_n` moves each of the `n`
elements, `uninitialized_copy_n` copies each. -/
def transferCounts (t : ElemType) (n : Nat) : Nat × Nat :=
  if growthUsesMove t then (n, 0) else (0, n)

/-- Transfer counts of `Reserve(newCapacity)` (vector.h:150-163): the
no-op branch touches no element; the growth branch transfers `size_`. -/
def reserveTransferCounts (t : ElemType) (v : Vec) (newCapacity : Nat) :
    Nat × Nat :=
  if newCapacity ≤ v.cap then (0, 0) else transferCounts t v.size

/-- Transfer counts of `PushBack` (vector.h:219-253). -/
def pushBackTransferCounts (t : ElemType) (v : Vec) : Nat × Nat :=
  if v.size = v.cap then transferCounts t v.size else (0, 0)

/-- Transfer counts of `EmplaceBack` (vector.h:255-271). -/
def emplaceBackTransferCounts (t : ElemType) (v : Vec) : Nat × Nat :=
  if v.size = v.cap then transferCounts t v.size else (0, 0)

/-- Transfer counts of `Emplace` at index `p` (vector.h:273-326): at
`end()` it delegates to `EmplaceBack`; interior at full capacity it
transfers the prefix of `p` elements and then the suffix of `size_ - p`
elements, each stage under the same `if constexpr`; interior with spare
capacity it reallocates nothing. -/
def emplaceTransferCounts (t : ElemType) (v : Vec) (p : Nat) : Nat × Nat :=
  if p = v.size then emplaceBackTransferCounts t v
  else if v.cap = v.size then
    ((transferCounts t p).1 + (transferCounts t (v.size - p)).1,
     (transferCounts t p).2 + (transferCounts t (v.size - p)).2)
  else (0, 0)

/-- One ordered event of the growth path of `PushBack`: constructing the
new element into its final slot of the new buffer, or transferring the
existing element of index `i`. -/
inductive GrowEv where
  | constructNew : Nat → Nat → GrowEv
  | transferOld : Nat → GrowEv
deriving Repr, DecidableEq

/-- The order of constructions `PushBack` performs (vector.h:219-253): in
the growth branch the new element is constructed first
(`new (new_data.GetAddress() + size_) T(value)`, line 222/240), then the
existing elements `0, …, size_-1` are transferred (lines 223-227). -/
def Vec.pushBackEvents (v : Vec) (x : Nat) : List GrowEv :=
  if v.size = v.cap then
    GrowEv.constructNew v.size x :: (List.range v.size).map GrowEv.transferOld
  else
    [GrowEv.constructNew v.size x]

/-- A block `uninitialized_copy_n` / `uninitialized_move_n` call that may
throw: on success the destination holds the transferred values; on a throw
the standard guarantees every element the call itself constructed has been
destroyed, so the call leaves nothing behind. -/
def transferBlock (failT : Bool) (src : List (Option Nat)) :
    Except Unit (List (Option Nat)) :=
  if failT then Except.error () else Except.ok src

/-- The interior growth path of `Vector::Emplace` (vector.h:282-317) with
its try/catch staging.  `failNew`: constructing the new element at
`new_data + distance` (line 289) throws; `failPre`: transferring the prefix
`[0, distance)` throws; `failSuf`: transferring the suffix
`[distance, size_)` throws.  An `Except.error (d, w)` carries the values the
catch handlers destroy, in destruction order, and the vector after
unwinding: the inner handler (line 306) destroys the transferred prefix, the
outer handler (line 311) destroys the new element, and `data_` / `size_` are
only modified after both transfers succeed (lines 314-316), so the vector is
the untouched pre-call state. -/
def Vec.emplaceGrowEx (v : Vec) (p : Nat) (x : Nat)
    (failNew failPre failSuf : Bool) :
    Except (List (Option Nat) × Vec) (Vec × Nat) :=
  if failNew then Except.error ([], v)
  else
    match transferBlock failPre (v.buf.take p) with
    | Except.error _ => Except.error ([some x], v)
    | Except.ok pre =>
      match transferBlock failSuf ((v.buf.drop p).take (v.size - p)) with
      | Except.error _ => Except.error (pre ++ [some x], v)
      | Except.ok suf =>
        Except.ok
          ({ buf := pre ++ [some x] ++ suf ++
              List.replicate ((if v.cap = 0 then 1 else 2 * v.cap) - v.size - 1) none,
             size := v.size + 1 }, p)

/-- `Vector::Vector(const Vector&)` (vector.h:120-125): allocate capacity
exactly `other.size_` and `uninitialized_copy_n` every element.  `failAt k`
means the copy of source element `k` throws; `uninitialized_copy_n` then
destroys the already-copied elements `[0, k)` (carried by the error, in
the order they were constructed) and propagates, so no partially
constructed vector exists. -/
def Vec.copyCtorEx (src : Vec) (failAt : Nat → Bool) :
    Except (List (Option Nat)) Vec :=
  match (List.range src.size).find? failAt with
  | some k => Except.error (src.buf.take k)
  | none => Except.ok { buf := src.buf.take src.size, size := src.size }

/-! ### Generic lemmas about buffer indexing -/

theorem getD_take (l : List (Option Nat)) (n i : Nat) (h : i < n) :
    (l.take n).getD i none = l.getD i none := by
  rcases Nat.lt_or_ge i l.length with hi | hi
  · rw [List.getD_eq_getElem _ _ (by simp; omega), List.getD_eq_getElem _ _ hi]
    simp [List.getElem_take]
  · rw [List.getD_eq_default _ _ (by simp; omega), List.getD_eq_default _ _ hi]

theorem getD_drop (l : List (Option Nat)) (n i : Nat) :
    (l.drop n).getD i none = l.getD (n + i) none := by
  rcases Nat.lt_or_ge (n + i) l.length with hi | hi
  · rw [List.getD_eq_getElem _ _ (by simp; omega), List.getD_eq_getElem _ _ hi]
    simp [List.getElem_drop]
  · rw [List.getD_eq_default _ _ (by simp; omega), List.getD_eq_default _ _ hi]

theorem getD_replicate (n i : Nat) :
    (List.replicate n (none : Option Nat)).getD i none = none := by
  rcases Nat.lt_or_ge i n with hi | hi
  · rw [List.getD_eq_getElem _ _ (by simp; omega)]
    simp
  · rw [List.getD_eq_default _ _ (by simp; omega)]

theorem getD_set_self (l : List (Option Nat)) (i : Nat) (x : Option Nat)
    (h : i < l.length) : (l.set i x).getD i none = x := by
  rw [List.getD_eq_getElem _ _ (by simp; omega)]
  simp [List.getElem_set_self]

theorem getD_set_ne (l : List (Option Nat)) (i j : Nat) (x : Option Nat)
    (h : i ≠ j) : (l.set i x).getD j none = l.getD j none := by
  rcases Nat.lt_or_ge j l.length with hi | hi
  · rw [List.getD_eq_getElem _ _ (by simp; omega), List.getD_eq_getElem _ _ hi]
    simp [List.getElem_set_ne h]
  · rw [List.getD_eq_default _ _ (by simp; omega), List.getD_eq_default _ _ hi]

theorem cap_mk (b : List (Option Nat)) (n : Nat) : (Vec.mk b n).cap = b.length := rfl

theorem size_mk (b : List (Option Nat)) (n : Nat) : (Vec.mk b n).size = n := rfl

/-! ### Characterization of `Erase` -/

theorem Vec.erase_ret (v : Vec) (p : Nat) : (v.erase p).2 = p := rfl

theorem Vec.erase_size (v : Vec) (p : Nat) : (v.erase p).1.size = v.size - 1 := rfl

theorem Vec.erase_cap (v : Vec) (p : Nat) (hwf : v.size ≤ v.cap)
    (hp : p < v.size) : (v.erase p).1.cap = v.cap := by
  have hc : v.size ≤ v.buf.length := hwf
  simp only [Vec.erase, Vec.cap, List.length_append, List.length_take,
    List.length_drop, List.length_replicate, List.length_cons, List.length_nil]
  omega

theorem Vec.erase_get_lt (v : Vec) (p i : Nat) (hwf : v.size ≤ v.cap)
    (hp : p < v.size) (hi : i < p) : (v.erase p).1.get i = v.get i := by
  have hc : v.size ≤ v.buf.length := hwf
  simp only [Vec.erase, Vec.get, List.append_assoc]
  rw [List.getD_append _ _ _ _ (by simp [List.length_take]; omega)]
  exact getD_take _ _ _ hi

theorem Vec.erase_get_mid (v : Vec) (p i : Nat) (hwf : v.size ≤ v.cap)
    (hp : p < v.size) (h1 : p ≤ i) (h2 : i < v.size - 1) :
    (v.erase p).1.get i = v.get (i + 1) := by
  have hc : v.size ≤ v.buf.length := hwf
  have hA : (v.buf.take p).length = p := by simp [List.length_take]; omega
  have hB : ((v.buf.drop (p + 1)).take (v.size - 1 - p)).length = v.size - 1 - p := by
    simp [List.length_take, List.length_drop]; omega
  simp only [Vec.erase, Vec.get, List.append_assoc]
  rw [List.getD_append_right _ _ _ _ (by rw [hA]; omega), hA,
    List.getD_append _ _ _ _ (by rw [hB]; omega),
    getD_take _ _ _ (by omega), getD_drop]
  have : p + 1 + (i - p) = i + 1 := by omega
  rw [this]

theorem Vec.erase_get_last (v : Vec) (p : Nat) (hwf : v.size ≤ v.cap)
    (hp : p < v.size) : (v.erase p).1.get (v.size - 1) = none := by
  have hc : v.size ≤ v.buf.length := hwf
  have hA : (v.buf.take p).length = p := by simp [List.length_take]; omega
  have hB : ((v.buf.drop (p + 1)).take (v.size - 1 - p)).length = v.size - 1 - p := by
    simp [List.length_take, List.length_drop]; omega
  simp only [Vec.erase, Vec.get, List.append_assoc]
  rw [List.getD_append_right _ _ _ _ (by rw [hA]; omega), hA,
    List.getD_append_right _ _ _ _ (by rw [hB]), hB]
  have : v.size - 1 - p - (v.size - 1 - p) = 0 := by omega
  rw [this]
  rfl

/-- Claim C7: for every non-empty vector and every valid position
`p ∈ [begin, end)`, `Erase(p)` shifts each element after `p` one slot left
by move-assignment, destroys the now-unused trailing slot, decrements
`Size()` by one, and returns the position now occupied by the element that
shifted into the erased slot, which equals `end()` exactly when the last
element was erased. -/
theorem vector_erase_spec (v : Vec) (p : Nat) (hwf : v.size ≤ v.cap)
    (hp : p < v.size) :
    (v.erase p).2 = p ∧
    (v.erase p).1.size = v.size - 1 ∧
    (v.erase p).1.cap = v.cap ∧
    (∀ i : Nat, i < p → (v.erase p).1.get i = v.get i) ∧
    (∀ i : Nat, p ≤ i → i < v.size - 1 → (v.erase p).1.get i = v.get (i + 1)) ∧
    (v.erase p).1.get (v.size - 1) = none ∧
    ((v.erase p).2 = (v.erase p).1.size ↔ p = v.size - 1) := by
  refine ⟨Vec.erase_ret v p, Vec.erase_size v p, Vec.erase_cap v p hwf hp,
    fun i hi => Vec.erase_get_lt v p i hwf hp hi,
    fun i h1 h2 => Vec.erase_get_mid v p i hwf hp h1 h2,
    Vec.erase_get_last v p hwf hp, ?_⟩
  rw [Vec.erase_ret, Vec.erase_size]

/-- Witness for claim C7 at the concrete vector `[1, 2, 3]` (capacity 4),
erasing position 1. -/
theorem vector_erase_spec_witness :
    ((Vec.mk [some 1, some 2, some 3, none] 3).size ≤
        (Vec.mk [some 1, some 2, some 3, none] 3).cap ∧
      1 < (Vec.mk [some 1, some 2, some 3, none] 3).size) ∧
    ((Vec.mk [some 1, some 2, some 3, none] 3).erase 1).1.size = 2 ∧
    ((Vec.mk [some 1, some 2, some 3, none] 3).erase 1).1.get 1 =
      (Vec.mk [some 1, some 2, some 3, none] 3).get 2 := by
  refine ⟨⟨by decide, by decide⟩, ?_, ?_⟩
  · exact (vector_erase_spec (Vec.mk [some 1, some 2, some 3, none] 3) 1
      (by decide) (by decide)).2.1
  · exact (vector_erase_spec (Vec.mk [some 1, some 2, some 3, none] 3) 1
      (by decide) (by decide)).2.2.2.2.1 1 (by decide) (by decide)

/-! ### Characterization of `Emplace` -/

theorem Vec.emplace_ret (v : Vec) (p x : Nat) (_hp : p ≤ v.size) :
    (v.emplace p x).2 = p := by
  simp only [Vec.emplace]
  by_cases hps : p = v.size
  · simp [hps]
  · simp only [if_neg hps]
    split <;> rfl

theorem Vec.emplace_size (v : Vec) (p x : Nat) :
    (v.emplace p x).1.size = v.size + 1 := by
  simp only [Vec.emplace, Vec.emplaceBack]
  by_cases hps : p = v.size
  · simp only [if_pos hps]
    split <;> rfl
  · simp only [if_neg hps]
    split <;> rfl

theorem Vec.emplace_size_le_cap (v : Vec) (p x : Nat) (hwf : v.size ≤ v.cap)
    (hp : p ≤ v.size) : (v.emplace p x).1.size ≤ (v.emplace p x).1.cap := by
  have hc : v.size ≤ v.buf.length := hwf
  simp only [Vec.emplace, Vec.emplaceBack, Vec.cap]
  split
  · split
    · rename_i hps hfull
      simp only [List.length_append, List.length_take, List.length_replicate,
        List.length_cons, List.length_nil]
      split <;> omega
    · rename_i hps hnf
      simp only [List.length_set]
      omega
  · split
    · rename_i hps hfull
      simp only [List.length_append, List.length_take, List.length_drop,
        List.length_replicate, List.length_cons, List.length_nil]
      split <;> omega
    · rename_i hps hnf
      simp only [List.length_append, List.length_take, List.length_drop,
        List.length_cons, List.length_nil]
      omega

theorem Vec.emplace_get_lt (v : Vec) (p x i : Nat) (hwf : v.size ≤ v.cap)
    (hp : p ≤ v.size) (hi : i < p) : (v.emplace p x).1.get i = v.get i := by
  have hc : v.size ≤ v.buf.length := hwf
  simp only [Vec.emplace, Vec.emplaceBack, Vec.cap, Vec.get, List.append_assoc]
  split
  · rename_i hps
    split
    · rw [List.getD_append _ _ _ _ (by simp [List.length_take]; omega)]
      exact getD_take _ _ _ (by omega)
    · exact getD_set_ne _ _ _ _ (by omega)
  · split
    · rw [List.getD_append _ _ _ _ (by simp [List.length_take]; omega)]
      exact getD_take _ _ _ hi
    · rw [List.getD_append _ _ _ _ (by simp [List.length_take]; omega)]
      exact getD_take _ _ _ hi

theorem Vec.emplace_get_at (v : Vec) (p x : Nat) (hwf : v.size ≤ v.cap)
    (hp : p ≤ v.size) : (v.emplace p x).1.get p = some x := by
  have hc : v.size ≤ v.buf.length := hwf
  simp only [Vec.emplace, Vec.emplaceBack, Vec.cap, Vec.get, List.append_assoc,
    List.singleton_append]
  split
  · rename_i hps
    split
    · rw [List.getD_append_right _ _ _ _ (by simp [List.length_take]; omega)]
      have h0 : p - (v.buf.take v.size).length = 0 := by
        simp [List.length_take]; omega
      rw [h0]
      rfl
    · rename_i hnf
      subst hps
      exact getD_set_self _ _ _ (by omega)
  · rename_i hps
    split
    · rw [List.getD_append_right _ _ _ _ (by simp [List.length_take])]
      have h0 : p - (v.buf.take p).length = 0 := by simp [List.length_take]; omega
      rw [h0]
      rfl
    · rw [List.getD_append_right _ _ _ _ (by simp [List.length_take])]
      have h0 : p - (v.buf.take p).length = 0 := by simp [List.length_take]; omega
      rw [h0]
      rfl

theorem Vec.emplace_get_shift (v : Vec) (p x i : Nat) (hwf : v.size ≤ v.cap)
    (hp : p ≤ v.size) (h1 : p ≤ i) (h2 : i < v.size) :
    (v.emplace p x).1.get (i + 1) = v.get i := by
  have hc : v.size ≤ v.buf.length := hwf
  have hA : (v.buf.take p).length = p := by simp [List.length_take]; omega
  simp only [Vec.emplace, Vec.emplaceBack, Vec.cap, Vec.get, List.append_assoc,
    List.singleton_append]
  split
  · rename_i hps
    omega
  · rename_i hps
    split
    · rw [List.getD_append_right _ _ _ _ (by rw [hA]; omega), hA]
      have hk : i + 1 - p = (i - p) + 1 := by omega
      rw [hk,
        List.getD_append _ _ _ _
          (by simp [List.length_cons, List.length_take, List.length_drop]; omega),
        List.getD_cons_succ, getD_take _ _ _ (by omega), getD_drop]
      have : p + (i - p) = i := by omega
      rw [this]
    · rw [List.getD_append_right _ _ _ _ (by rw [hA]; omega), hA]
      have hk : i + 1 - p = (i - p) + 1 := by omega
      rw [hk,
        List.getD_append _ _ _ _
          (by simp [List.length_cons, List.length_take, List.length_drop]; omega),
        List.getD_cons_succ, getD_take _ _ _ (by omega), getD_drop]
      have : p + (i - p) = i := by omega
      rw [this]

/-- Claim C9: for every vector and every valid position `p` (an index in
`[begin, end]`, the range `Emplace` accepts), performing `Emplace` at `p`
and then `Erase` at the returned position restores the original element
sequence, size, and values. -/
theorem vector_emplace_erase_round_trip (v : Vec) (p x : Nat)
    (hwf : v.size ≤ v.cap) (hp : p ≤ v.size) :
    ((v.emplace p x).1.erase (v.emplace p x).2).1.size = v.size ∧
    ∀ i : Nat, i < v.size →
      ((v.emplace p x).1.erase (v.emplace p x).2).1.get i = v.get i := by
  have hr : (v.emplace p x).2 = p := Vec.emplace_ret v p x hp
  have hs : (v.emplace p x).1.size = v.size + 1 := Vec.emplace_size v p x
  have hsc : (v.emplace p x).1.size ≤ (v.emplace p x).1.cap :=
    Vec.emplace_size_le_cap v p x hwf hp
  constructor
  · rw [hr, Vec.erase_size, hs]
    omega
  · intro i hi
    rw [hr]
    rcases Nat.lt_or_ge i p with hip | hip
    · rw [Vec.erase_get_lt _ _ _ hsc (by omega) hip]
      exact Vec.emplace_get_lt v p x i hwf hp hip
    · rw [Vec.erase_get_mid _ _ _ hsc (by omega) hip (by omega)]
      exact Vec.emplace_get_shift v p x i hwf hp hip hi

/-- Witness for claim C9 at the full vector `[1, 2]`, emplacing `7` at
position 1 (which reallocates) and erasing the returned position. -/
theorem vector_emplace_erase_round_trip_witness :
    ((Vec.mk [some 1, some 2] 2).size ≤ (Vec.mk [some 1, some 2] 2).cap ∧
      1 ≤ (Vec.mk [some 1, some 2] 2).size) ∧
    (((Vec.mk [some 1, some 2] 2).emplace 1 7).1.erase
        ((Vec.mk [some 1, some 2] 2).emplace 1 7).2).1.size = 2 ∧
    (((Vec.mk [some 1, some 2] 2).emplace 1 7).1.erase
        ((Vec.mk [some 1, some 2] 2).emplace 1 7).2).1.get 1 =
      (Vec.mk [some 1, some 2] 2).get 1 := by
  refine ⟨⟨by decide, by decide⟩, ?_, ?_⟩
  · exact (vector_emplace_erase_round_trip (Vec.mk [some 1, some 2] 2) 1 7
      (by decide) (by decide)).1
  · exact (vector_emplace_erase_round_trip (Vec.mk [some 1, some 2] 2) 1 7
      (by decide) (by decide)).2 1 (by decide)

/-- Claim C5: `Reserve(newCapacity)` with `newCapacity <= Capacity()`
changes nothing; with `newCapacity > Capacity()` it sets `Capacity()` to
exactly `newCapacity`; it never reduces `Capacity()` and never changes
`Size()` or the values and order of the live elements. -/
theorem vector_reserve_spec (v : Vec) (newCapacity : Nat)
    (hwf : v.size ≤ v.cap) :
    (v.reserve newCapacity).size = v.size ∧
    (∀ i : Nat, i < v.size → (v.reserve newCapacity).get i = v.get i) ∧
    v.cap ≤ (v.reserve newCapacity).cap ∧
    (newCapacity ≤ v.cap → v.reserve newCapacity = v) ∧
    (v.cap < newCapacity → (v.reserve newCapacity).cap = newCapacity) := by
  have hc : v.size ≤ v.buf.length := hwf
  have hcap : v.cap = v.buf.length := rfl
  by_cases hle : newCapacity ≤ v.cap
  · simp [Vec.reserve, hle]
  · refine ⟨?_, ?_, ?_, fun h => absurd h hle, fun _ => ?_⟩
    · simp [Vec.reserve, hle]
    · intro i hi
      simp only [Vec.reserve, if_neg hle, Vec.get]
      rw [List.getD_append _ _ _ _ (by simp [List.length_take]; omega)]
      exact getD_take _ _ _ hi
    · have h' : ¬ newCapacity ≤ v.buf.length := hle
      simp only [Vec.reserve, Vec.cap, if_neg h', List.length_append,
        List.length_take, List.length_replicate]
      omega
    · have h' : ¬ newCapacity ≤ v.buf.length := hle
      simp only [Vec.reserve, Vec.cap, if_neg h', List.length_append,
        List.length_take, List.length_replicate]
      omega

/-- Witness for claim C5 at the vector `[1]` (capacity 2), reserving 5. -/
theorem vector_reserve_spec_witness :
    (Vec.mk [some 1, none] 1).size ≤ (Vec.mk [some 1, none] 1).cap ∧
    ((Vec.mk [some 1, none] 1).reserve 5).cap = 5 ∧
    ((Vec.mk [some 1, none] 1).reserve 5).size = 1 ∧
    ((Vec.mk [some 1, none] 1).reserve 5).get 0 = (Vec.mk [some 1, none] 1).get 0 := by
  refine ⟨by decide, ?_, ?_, ?_⟩
  · exact (vector_reserve_spec (Vec.mk [some 1, none] 1) 5 (by decide)).2.2.2.2
      (by decide)
  · exact (vector_reserve_spec (Vec.mk [some 1, none] 1) 5 (by decide)).1
  · exact (vector_reserve_spec (Vec.mk [some 1, none] 1) 5 (by decide)).2.1 0
      (by decide)

/-- Claim C4: `PushBack` on a vector with `Size() == Capacity()` yields a
new capacity of `max(1, 2 * Capacity())`; the first `Size()` elements keep
their values and order, the last element equals the pushed value, and the
new element is constructed into the new buffer at its final slot before
any existing element is transferred (first event of the growth path). -/
theorem vector_pushBack_full_spec (v : Vec) (x : Nat) (hfull : v.size = v.cap) :
    (v.pushBack x).cap = max 1 (2 * v.cap) ∧
    (v.pushBack x).size = v.size + 1 ∧
    (∀ i : Nat, i < v.size → (v.pushBack x).get i = v.get i) ∧
    (v.pushBack x).get v.size = some x ∧
    v.pushBackEvents x =
      GrowEv.constructNew v.size x :: (List.range v.size).map GrowEv.transferOld := by
  have hcap : v.cap = v.buf.length := rfl
  refine ⟨?_, ?_, ?_, ?_, ?_⟩
  · simp only [Vec.pushBack, if_pos hfull, cap_mk, List.length_append,
      List.length_take, List.length_replicate, List.length_cons, List.length_nil]
    split <;> omega
  · simp only [Vec.pushBack, if_pos hfull]
  · intro i hi
    simp only [Vec.pushBack, if_pos hfull, Vec.get, List.append_assoc,
      List.singleton_append]
    rw [List.getD_append _ _ _ _ (by simp [List.length_take]; omega)]
    exact getD_take _ _ _ (by omega)
  · simp only [Vec.pushBack, if_pos hfull, Vec.get, List.append_assoc,
      List.singleton_append]
    rw [List.getD_append_right _ _ _ _ (by simp [List.length_take])]
    have h0 : v.size - (v.buf.take v.size).length = 0 := by
      simp [List.length_take]; omega
    rw [h0]
    rfl
  · simp [Vec.pushBackEvents, hfull]

/-- Witness for claim C4 at the full vector `[5]`, pushing 9. -/
theorem vector_pushBack_full_spec_witness :
    (Vec.mk [some 5] 1).size = (Vec.mk [some 5] 1).cap ∧
    ((Vec.mk [some 5] 1).pushBack 9).cap = 2 ∧
    ((Vec.mk [some 5] 1).pushBack 9).get 1 = some 9 ∧
    (Vec.mk [some 5] 1).pushBackEvents 9 =
      GrowEv.constructNew 1 9 :: (List.range 1).map GrowEv.transferOld := by
  refine ⟨by decide, ?_, ?_, ?_⟩
  · exact (vector_pushBack_full_spec (Vec.mk [some 5] 1) 9 (by decide)).1
  · exact (vector_pushBack_full_spec (Vec.mk [some 5] 1) 9 (by decide)).2.2.2.1
  · exact (vector_pushBack_full_spec (Vec.mk [some 5] 1) 9 (by decide)).2.2.2.2

/-- Claim C2: every growth-triggering operation (`Reserve` past capacity,
`PushBack` / `EmplaceBack` / `Emplace` at full capacity) transfers the
existing elements by move construction when `T`'s move constructor is
non-throwing or `T` is not copy-constructible, and by copy construction
otherwise. -/
theorem vector_growth_transfer_mode (t : ElemType) (v : Vec)
    (newCapacity p : Nat) (hres : v.cap < newCapacity)
    (hfull : v.size = v.cap) (hp : p < v.size) :
    ((t.nothrowMoveCtor || !t.copyCtorAvailable) = true →
      reserveTransferCounts t v newCapacity = (v.size, 0) ∧
      pushBackTransferCounts t v = (v.size, 0) ∧
      emplaceBackTransferCounts t v = (v.size, 0) ∧
      emplaceTransferCounts t v p = (v.size, 0)) ∧
    ((t.nothrowMoveCtor || !t.copyCtorAvailable) = false →
      reserveTransferCounts t v newCapacity = (0, v.size) ∧
      pushBackTransferCounts t v = (0, v.size) ∧
      emplaceBackTransferCounts t v = (0, v.size) ∧
      emplaceTransferCounts t v p = (0, v.size)) := by
  have hnotle : ¬ newCapacity ≤ v.cap := by omega
  have hnp : ¬ p = v.size := by omega
  have hcs : v.cap = v.size := hfull.symm
  constructor <;> intro hmode <;> refine ⟨?_, ?_, ?_, ?_⟩
  · simp [reserveTransferCounts, transferCounts, growthUsesMove, hmode, hnotle]
  · simp [pushBackTransferCounts, transferCounts, growthUsesMove, hmode, hfull]
  · simp [emplaceBackTransferCounts, transferCounts, growthUsesMove, hmode, hfull]
  · simp [emplaceTransferCounts, emplaceBackTransferCounts, transferCounts,
      growthUsesMove, hmode, hnp, hcs, Prod.ext_iff]
    omega
  · simp [reserveTransferCounts, transferCounts, growthUsesMove, hmode, hnotle]
  · simp [pushBackTransferCounts, transferCounts, growthUsesMove, hmode, hfull]
  · simp [emplaceBackTransferCounts, transferCounts, growthUsesMove, hmode, hfull]
  · simp [emplaceTransferCounts, emplaceBackTransferCounts, transferCounts,
      growthUsesMove, hmode, hnp, hcs, Prod.ext_iff]
    omega

/-- Witness for claim C2 at a nothrow-movable type and a copy-only type, on
the full vector `[1, 2]`, growing to capacity 3 and emplacing at 1. -/
theorem vector_growth_transfer_mode_witness :
    ((Vec.mk [some 1, some 2] 2).cap < 3 ∧
      (Vec.mk [some 1, some 2] 2).size = (Vec.mk [some 1, some 2] 2).cap ∧
      1 < (Vec.mk [some 1, some 2] 2).size) ∧
    reserveTransferCounts (ElemType.mk true true) (Vec.mk [some 1, some 2] 2) 3 =
      (2, 0) ∧
    emplaceTransferCounts (ElemType.mk false true) (Vec.mk [some 1, some 2] 2) 1 =
      (0, 2) := by
  refine ⟨⟨by decide, by decide, by decide⟩, ?_, ?_⟩
  · exact ((vector_growth_transfer_mode (ElemType.mk true true)
      (Vec.mk [some 1, some 2] 2) 3 1 (by decide) (by decide) (by decide)).1
        (by decide)).1
  · exact ((vector_growth_transfer_mode (ElemType.mk false true)
      (Vec.mk [some 1, some 2] 2) 3 1 (by decide) (by decide) (by decide)).2
        (by decide)).2.2.2

/-- Claim C3: the growth path of `Emplace` at an interior position is
staged exception-safely: if constructing the new element throws, nothing is
destroyed and the vector is unchanged; if transferring the prefix throws,
only the new element is destroyed before the error propagates; if
transferring the suffix throws, the transferred prefix and the new element
are destroyed before the error propagates; in every failure case the
vector's observable state is exactly its pre-call state. -/
theorem vector_emplace_grow_exception_stages (v : Vec) (p x : Nat)
    (failNew failPre failSuf : Bool) (_hfull : v.size = v.cap)
    (_hp : p < v.size) :
    (failNew = true →
      v.emplaceGrowEx p x failNew failPre failSuf = Except.error ([], v)) ∧
    (failNew = false → failPre = true →
      v.emplaceGrowEx p x failNew failPre failSuf =
        Except.error ([some x], v)) ∧
    (failNew = false → failPre = false → failSuf = true →
      v.emplaceGrowEx p x failNew failPre failSuf =
        Except.error (v.buf.take p ++ [some x], v)) ∧
    (∀ d : List (Option Nat), ∀ w : Vec,
      v.emplaceGrowEx p x failNew failPre failSuf = Except.error (d, w) →
        w = v) := by
  refine ⟨?_, ?_, ?_, ?_⟩
  · intro h
    simp [Vec.emplaceGrowEx, h]
  · intro h1 h2
    simp [Vec.emplaceGrowEx, transferBlock, h1, h2]
  · intro h1 h2 h3
    simp [Vec.emplaceGrowEx, transferBlock, h1, h2, h3]
  · intro d w h
    cases failNew <;> cases failPre <;> cases failSuf <;>
      simp [Vec.emplaceGrowEx, transferBlock] at h <;>
      exact h.2.symm

/-- Witness for claim C3 on the full vector `[1, 2]`, emplacing at 1, with
the suffix transfer throwing: the prefix element and the new element are
destroyed and the vector is returned untouched. -/
theorem vector_emplace_grow_exception_stages_witness :
    ((Vec.mk [some 1, some 2] 2).size = (Vec.mk [some 1, some 2] 2).cap ∧
      1 < (Vec.mk [some 1, some 2] 2).size) ∧
    (Vec.mk [some 1, some 2] 2).emplaceGrowEx 1 7 false false true =
      Except.error ((Vec.mk [some 1, some 2] 2).buf.take 1 ++ [some 7],
        Vec.mk [some 1, some 2] 2) := by
  refine ⟨⟨by decide, by decide⟩, ?_⟩
  exact (vector_emplace_grow_exception_stages (Vec.mk [some 1, some 2] 2) 1 7
    false false true (by decide) (by decide)).2.2.1 rfl rfl rfl

theorem range'_find?_first (p : Nat → Bool) :
    ∀ (n s k : Nat), (List.range' s n).find? p = some k →
      ∀ j : Nat, s ≤ j → j < k → p j = false := by
  intro n
  induction n with
  | zero =>
    intro s k h
    simp at h
  | succ m ih =>
    intro s k h j hsj hjk
    rw [List.range'_succ] at h
    by_cases hps : p s = true
    · rw [List.find?_cons_of_pos _ hps] at h
      injection h with h'
      omega
    · rw [List.find?_cons_of_neg _ hps] at h
      by_cases hjs : j = s
      · subst hjs
        simpa using hps
      · exact ih (s + 1) k h j (by omega) hjk

theorem range_find?_first (p : Nat → Bool) (n k : Nat)
    (h : (List.range n).find? p = some k) : ∀ j : Nat, j < k → p j = false := by
  rw [List.range_eq_range'] at h
  intro j hj
  exact range'_find?_first p n 0 k h j (Nat.zero_le j) hj

/-- Claim C6: copy-constructing `B` from `A` allocates capacity exactly
`A.Size()` and copy-constructs every element, giving `B.Size() == A.Size()`
with element-wise equality; if the copy of element `k` throws (`k` being
the first failing index), the previously copied elements `[0, k)` are
destroyed and no partially constructed vector is observable. -/
theorem vector_copy_ctor_strong (src : Vec) (failAt : Nat → Bool)
    (hwf : src.size ≤ src.cap) :
    ((∀ k : Nat, k < src.size → failAt k = false) →
      ∃ b : Vec, src.copyCtorEx failAt = Except.ok b ∧
        b.cap = src.size ∧ b.size = src.size ∧
        ∀ i : Nat, i < src.size → b.get i = src.get i) ∧
    (∀ k : Nat, (List.range src.size).find? failAt = some k →
      src.copyCtorEx failAt = Except.error (src.buf.take k) ∧
      k < src.size ∧ failAt k = true ∧
      (∀ j : Nat, j < k → failAt j = false) ∧
      ∀ b : Vec, src.copyCtorEx failAt ≠ Except.ok b) := by
  have hc : src.size ≤ src.buf.length := hwf
  constructor
  · intro hok
    have hfind : (List.range src.size).find? failAt = none := by
      rw [List.find?_eq_none]
      intro a ha
      rw [List.mem_range] at ha
      simp [hok a ha]
    refine ⟨Vec.mk (src.buf.take src.size) src.size, ?_, ?_, rfl, ?_⟩
    · simp [Vec.copyCtorEx, hfind]
    · simp only [cap_mk, List.length_take]
      omega
    · intro i hi
      simp only [Vec.get]
      exact getD_take _ _ _ hi
  · intro k hfind
    have hmem : k ∈ List.range src.size := List.mem_of_find?_eq_some hfind
    rw [List.mem_range] at hmem
    refine ⟨?_, hmem, List.find?_some hfind, range_find?_first failAt _ _ hfind, ?_⟩
    · simp [Vec.copyCtorEx, hfind]
    · intro b hb
      simp [Vec.copyCtorEx, hfind] at hb

/-- Witness for claim C6 on the vector `[1, 2, 3]` (capacity 4): the
no-throw run copies everything into capacity 3; a copy that throws at
index 1 destroys exactly the first element and yields no vector. -/
theorem vector_copy_ctor_strong_witness :
    ((Vec.mk [some 1, some 2, some 3, none] 3).size ≤
        (Vec.mk [some 1, some 2, some 3, none] 3).cap ∧
      (List.range 3).find? (fun k => decide (k = 1)) = some 1) ∧
    (∃ b : Vec,
      (Vec.mk [some 1, some 2, some 3, none] 3).copyCtorEx (fun _ => false) =
        Except.ok b ∧
      b.cap = 3 ∧ b.size = 3 ∧
      ∀ i : Nat, i < 3 →
        b.get i = (Vec.mk [some 1, some 2, some 3, none] 3).get i) ∧
    (Vec.mk [some 1, some 2, some 3, none] 3).copyCtorEx
        (fun k => decide (k = 1)) =
      Except.error ((Vec.mk [some 1, some 2, some 3, none] 3).buf.take 1) := by
  refine ⟨⟨by decide, by decide⟩, ?_, ?_⟩
  · exact (vector_copy_ctor_strong (Vec.mk [some 1, some 2, some 3, none] 3)
      (fun _ => false) (by decide)).1 (fun k _ => rfl)
  · exact ((vector_copy_ctor_strong (Vec.mk [some 1, some 2, some 3, none] 3)
      (fun k => decide (k = 1)) (by decide)).2 1 (by decide)).1

/-- Claim C10: self copy-assignment is a no-op.  `a = a` takes the
`this == &rhs` path of `operator=(const Vector&)` (vector.h:166), so the
vector — size, capacity and every element — is returned unchanged and no
element is copy-assigned, copy-constructed or destroyed. -/
theorem vector_self_assign_noop (v : Vec) :
    v.assign v true = (v, AssignOps.mk 0 0 0) := rfl

/-- Claim C1 is refuted by the code.  With `a = [10]` over capacity 2 and
`b = [1, 2]` — distinct vectors with `a.Size() < b.Size() ≤ a.Capacity()` —
copy-assignment `a = b` keeps `a`'s buffer (capacity 2) and sets
`Size() = 2`, but the tail copy of vector.h line 186 starts at offset
`i + 1 = 2` in both source and destination instead of `i = 1`: slot 1 of
`a` is never written (it stays raw), the claimed `a[1] == b[1]` fails, and
the read touches `rhs.data_[2]`, one past the source's live range. -/
theorem vector_copy_assign_longer_bug :
    (Vec.copyAssign (Vec.mk [some 10, none] 1) (Vec.mk [some 1, some 2] 2)).size
      = 2 ∧
    (Vec.copyAssign (Vec.mk [some 10, none] 1) (Vec.mk [some 1, some 2] 2)).cap
      = 2 ∧
    (Vec.copyAssign (Vec.mk [some 10, none] 1) (Vec.mk [some 1, some 2] 2)).get 0
      = some 1 ∧
    (Vec.copyAssign (Vec.mk [some 10, none] 1) (Vec.mk [some 1, some 2] 2)).get 1
      = none ∧
    (Vec.mk [some 1, some 2] 2).get 1 = some 2 := by
  decide

/-- Claim C8 is refuted by the code through the same slip: copy-assignment
from the larger `b = [1, 2, 3]` into `a = [9]` (capacity 3) sets
`Size() = 3` but leaves position 1 unconstructed, so the invariant that
every position below `Size()` holds a live element does not survive
`operator=`. -/
theorem vector_copy_assign_invariant_bug :
    (Vec.mk [some 9, none, none] 1).WF ∧
    (Vec.mk [some 1, some 2, some 3] 3).WF ∧
    (Vec.copyAssign (Vec.mk [some 9, none, none] 1)
      (Vec.mk [some 1, some 2, some 3] 3)).size = 3 ∧
    (Vec.copyAssign (Vec.mk [some 9, none, none] 1)
      (Vec.mk [some 1, some 2, some 3] 3)).get 1 = none ∧
    ¬ (Vec.copyAssign (Vec.mk [some 9, none, none] 1)
      (Vec.mk [some 1, some 2, some 3] 3)).WF := by
  decide
